import Mathlib

/-!
Shallow embedding of the `x86_64` crate fragment (`src/lib.rs`):
the `PrivilegeLevel` enumeration with its `from_u16` conversion, the
`Singleton` one-shot exclusive-reference primitive, and its `Sync`/`Send`
marker declarations.  The checked/truncating `VirtAddr` constructors are
re-exported from the crate's `addr` module, whose code is not part of the
provided sources; they are modelled from the specification.

Conventions: Rust machine integers become `Nat` with explicit bounds
(`v < 2^64`, `n < 65536`) where they matter; a Rust `panic!` becomes the
`Except.error` branch carrying the panic message; the stateful
`try_get_mut` becomes a pure state-passing function returning the optional
reference value together with the successor state.
-/

/-- Embeds the Rust `enum PrivilegeLevel` (`#[repr(u8)]`, four variants with
discriminants 0..3) from `src/lib.rs`. -/
inductive PrivilegeLevel : Type where
  | Ring0 : PrivilegeLevel
  | Ring1 : PrivilegeLevel
  | Ring2 : PrivilegeLevel
  | Ring3 : PrivilegeLevel
deriving DecidableEq, Repr

/-- Numeric encoding of each ring, i.e. the `#[repr(u8)]` discriminant
assigned in the source (`Ring0 = 0`, …, `Ring3 = 3`). -/
def PrivilegeLevel.toValue : PrivilegeLevel → Nat
  | .Ring0 => 0
  | .Ring1 => 1
  | .Ring2 => 2
  | .Ring3 => 3

/-- Embeds `PrivilegeLevel::from_u16` from `src/lib.rs`: a `match` sending
0/1/2/3 to the corresponding ring and any other value `i` to
`panic!("{} is not a valid privilege level", i)`.  The panic is modelled as
`Except.error` carrying the formatted panic message. -/
def PrivilegeLevel.from_u16 (value : Nat) : Except String PrivilegeLevel :=
  match value with
  | 0 => .ok .Ring0
  | 1 => .ok .Ring1
  | 2 => .ok .Ring2
  | 3 => .ok .Ring3
  | i => .error (toString i ++ " is not a valid privilege level")

namespace x86

/-- Embeds the Rust `struct Singleton<T>` from `src/lib.rs`: an
`AtomicBool` used-flag (modelled as `Bool`; sequential snapshots of an
atomic are a plain value) and an `UnsafeCell<T>` payload (modelled as the
payload itself). -/
structure Singleton (T : Type) where
  used : Bool
  value : T
deriving DecidableEq, Repr

/-- Embeds `Singleton::new`: flag `false`, payload `value`. -/
def Singleton.new {T : Type} (value : T) : Singleton T :=
  { used := false, value := value }

/-- Embeds `Singleton::try_get_mut`.  The atomic
`self.used.swap(true, AcqRel)` returns the previous flag and
unconditionally stores `true`; if the previous flag was set the call
returns `None`, otherwise `Some` of the (unique) mutable reference, whose
referent is the wrapped value.  Modelled as a state-passing step returning
the optional referent together with the post-call state. -/
def Singleton.try_get_mut {T : Type} (s : Singleton T) :
    Option T × Singleton T :=
  let already_used := s.used
  let s' : Singleton T := { s with used := true }
  if already_used then (none, s')
  else (some s.value, s')

/-- `n` sequential calls of `try_get_mut` on one singleton, collecting each
call's result.  Because the flag transition in the source is a single
atomic read-modify-write, any interleaving of `n` concurrent calls is
observationally one of these sequential orders, and the calls are
symmetric, so one sequentialisation represents them all. -/
def Singleton.runCalls {T : Type} (s : Singleton T) :
    Nat → List (Option T) × Singleton T
  | 0 => ([], s)
  | n + 1 =>
    let step := s.try_get_mut
    let rest := Singleton.runCalls step.2 n
    (step.1 :: rest.1, rest.2)

/-- Embeds `Singleton::new` with an explicit panic channel
(`Except.error` = panic).  The body (`AtomicBool::new`, `UnsafeCell::new`,
struct literal) contains no panicking operation, so no `error` branch
occurs in the translation. -/
def Singleton.newE {T : Type} (value : T) : Except String (Singleton T) :=
  .ok { used := false, value := value }

/-- Embeds `Singleton::try_get_mut` with an explicit panic channel
(`Except.error` = panic).  The body (atomic `swap`, an `if`, a raw-pointer
dereference) contains no panicking operation, so no `error` branch occurs
in the translation. -/
def Singleton.try_get_mutE {T : Type} (s : Singleton T) :
    Except String (Option T × Singleton T) :=
  let already_used := s.used
  let s' : Singleton T := { s with used := true }
  if already_used then .ok (none, s')
  else .ok (some s.value, s')

end x86

/-- Modelled from the spec: the crate's `addr` module is only re-exported
from `src/lib.rs` (`pub use crate::addr::{..., VirtAddr}`); its code is not
among the provided sources.  Per the spec, `VirtAddr` is an opaque 64-bit
integer wrapper. -/
structure VirtAddr where
  val : Nat
deriving DecidableEq, Repr

/-- Modelled from the spec: `as_u64` exposes the wrapped 64-bit value. -/
def VirtAddr.as_u64 (a : VirtAddr) : Nat :=
  a.val

/-- Modelled from the spec: the canonical-form invariant for `VirtAddr` —
"bits 48–63 must be either all zero or all one and consistent with bit 47
(sign-extension canonical form)", i.e. every bit in positions 48..=63
equals bit 47. -/
def VirtAddr.Canonical (v : Nat) : Prop :=
  ∀ i : Nat, i < 64 → 48 ≤ i → v.testBit i = v.testBit 47

instance (v : Nat) : Decidable (VirtAddr.Canonical v) := by
  unfold VirtAddr.Canonical
  exact Nat.decidableBallLT 64 _

/-- Modelled from the spec: the checked constructor `new(addr)` —
"construction from a non-canonical value fails" and succeeds on canonical
input; the spec's `Result<Self, AddressError>` is modelled as `Option`. -/
def VirtAddr.new (v : Nat) : Option VirtAddr :=
  if VirtAddr.Canonical v then some ⟨v⟩ else none

/-- Modelled from the spec: the truncating constructor `new_truncate(addr)`
— "silently forces canonicality by sign-extending bit 47": bits 0..=47 are
kept, and bits 48..=63 are all set to a copy of bit 47. -/
def VirtAddr.new_truncate (v : Nat) : VirtAddr :=
  if v.testBit 47 then ⟨v % 2 ^ 48 + (2 ^ 64 - 2 ^ 48)⟩ else ⟨v % 2 ^ 48⟩

/-- Thread-safety attributes of a Rust type parameter `T`: whether `T`
is `Send` and whether `T` is `Sync`. -/
structure RustTypeAttrs where
  isSend : Bool
  isSync : Bool
deriving DecidableEq, Repr

/-- Embeds `unsafe impl<T> Sync for Singleton<T> {}` from `src/lib.rs`:
`Singleton<T>` is `Sync` with no bound on `T` whatsoever. -/
def singletonIsSync (_t : RustTypeAttrs) : Bool :=
  true

/-- Embeds `unsafe impl<T: Send> Send for Singleton<T> {}` from
`src/lib.rs` together with Rust's coherence rules: the only `Send` impl
for `Singleton<T>` carries the bound `T: Send` (and the auto-derived impl
would carry the same bound, via the `UnsafeCell<T>` field), so
`Singleton<T>` is `Send` exactly when `T` is `Send`. -/
def singletonIsSend (t : RustTypeAttrs) : Bool :=
  t.isSend

/-! ### Helper lemmas -/

theorem x86.Singleton.try_get_mut_of_used {T : Type} (s : x86.Singleton T)
    (h : s.used = true) : s.try_get_mut = (none, s) := by
  cases s with
  | mk u v => cases h; rfl

theorem x86.Singleton.runCalls_of_used {T : Type} :
    ∀ (n : Nat) (s : x86.Singleton T), s.used = true →
      s.runCalls n = (List.replicate n none, s) := by
  intro n
  induction n with
  | zero => intro s h; rfl
  | succ n ih =>
    intro s h
    simp only [x86.Singleton.runCalls, x86.Singleton.try_get_mut_of_used s h,
      ih s h, List.replicate_succ]

theorem x86.Singleton.runCalls_new {T : Type} (v : T) (n : Nat) :
    (x86.Singleton.new v).runCalls (n + 1)
      = (some v :: List.replicate n none, { used := true, value := v }) := by
  have h1 : (x86.Singleton.new v).try_get_mut
      = (some v, { used := true, value := v }) := rfl
  simp only [x86.Singleton.runCalls, h1,
    x86.Singleton.runCalls_of_used n { used := true, value := v } rfl]

theorem virtaddr_testBit_div (v j : Nat) :
    (v / 2 ^ 47).testBit j = v.testBit (47 + j) := by
  rw [← Nat.shiftRight_eq_div_pow, Nat.testBit_shiftRight]

theorem virtaddr_canonical_iff_div (v : Nat) (hv : v < 2 ^ 64) :
    VirtAddr.Canonical v ↔ v / 2 ^ 47 = 0 ∨ v / 2 ^ 47 = 131071 := by
  constructor
  · intro h
    have hw : v / 2 ^ 47 < 2 ^ 17 := by
      apply Nat.div_lt_of_lt_mul
      calc v < 2 ^ 64 := hv
        _ = 2 ^ 47 * 2 ^ 17 := by norm_num
    have hall : ∀ j, 1 ≤ j → j < 17 →
        (v / 2 ^ 47).testBit j = (v / 2 ^ 47).testBit 0 := by
      intro j h1 h17
      rw [virtaddr_testBit_div, virtaddr_testBit_div]
      simpa using h (47 + j) (by omega) (by omega)
    have hhi : ∀ j, 17 ≤ j → (v / 2 ^ 47).testBit j = false := by
      intro j hj
      exact Nat.testBit_lt_two_pow
        (lt_of_lt_of_le hw (Nat.pow_le_pow_right (by norm_num) hj))
    cases hb : (v / 2 ^ 47).testBit 0 with
    | false =>
      left
      apply Nat.eq_of_testBit_eq
      intro j
      rw [Nat.zero_testBit]
      by_cases hj : j < 17
      · rcases Nat.eq_zero_or_pos j with hj0 | hjpos
        · rw [hj0]; exact hb
        · rw [hall j hjpos hj]; exact hb
      · exact hhi j (by omega)
    | true =>
      right
      apply Nat.eq_of_testBit_eq
      intro j
      rw [show (131071 : Nat) = 2 ^ 17 - 1 by norm_num,
        Nat.testBit_two_pow_sub_one]
      by_cases hj : j < 17
      · rw [decide_eq_true hj]
        rcases Nat.eq_zero_or_pos j with hj0 | hjpos
        · rw [hj0]; exact hb
        · rw [hall j hjpos hj]; exact hb
      · rw [decide_eq_false hj]
        exact hhi j (by omega)
  · intro h i hi hi48
    have e1 : v.testBit i = (v / 2 ^ 47).testBit (i - 47) := by
      rw [virtaddr_testBit_div]
      congr 1
      omega
    have e2 : v.testBit 47 = (v / 2 ^ 47).testBit 0 := by
      rw [virtaddr_testBit_div]
    rcases h with h | h
    · rw [e1, e2, h, Nat.zero_testBit, Nat.zero_testBit]
    · rw [e1, e2, h, show (131071 : Nat) = 2 ^ 17 - 1 by norm_num,
        Nat.testBit_two_pow_sub_one, Nat.testBit_two_pow_sub_one]
      have h1 : i - 47 < 17 := by omega
      simp [h1]

theorem virtaddr_testBit47_div (v : Nat) :
    v.testBit 47 = decide (v / 2 ^ 47 % 2 = 1) :=
  Nat.testBit_to_div_mod

/-! ### Claim theorems -/

/-- Claim C1: on a freshly constructed `Singleton::new(v)`, the first
`try_get_mut` call returns `Some` whose referent equals `v`; every
subsequent call, for any number `n` of further sequential calls, returns
`None`; and the used flag is `true` after every call (a call never resets
it), so the used state is never reversed. -/
theorem singleton_first_some_then_none {T : Type} (v : T) (n : Nat) :
    (x86.Singleton.new v).runCalls (n + 1)
        = (some v :: List.replicate n none, { used := true, value := v }) ∧
      ∀ s : x86.Singleton T, (s.try_get_mut).2.used = true := by
  refine ⟨x86.Singleton.runCalls_new v n, ?_⟩
  intro s
  cases s with
  | mk u v' =>
    cases u with
    | false => rfl
    | true => rfl

/-- Claim C2: for every `N ≥ 1`, running `N` calls of `try_get_mut` on a
fresh singleton — one sequentialisation representing every interleaving of
`N` concurrent calls, since the flag transition is a single atomic
read-modify-write (`swap`) that only one caller can observe as previously
`false` — yields exactly one `Some` result and `N - 1` `None` results. -/
theorem singleton_exactly_one_some {T : Type} (v : T) (N : Nat)
    (h : 1 ≤ N) :
    (((x86.Singleton.new v).runCalls N).1.countP (fun r => r.isSome)) = 1 ∧
      (((x86.Singleton.new v).runCalls N).1.countP (fun r => r.isNone))
        = N - 1 := by
  obtain ⟨n, rfl⟩ : ∃ n, N = n + 1 := ⟨N - 1, by omega⟩
  rw [x86.Singleton.runCalls_new]
  constructor
  · simp [List.countP_cons, List.countP_replicate]
  · simp [List.countP_cons, List.countP_replicate]

/-- Witness for claim C2 at `T = Nat`, `v = 0`, `N = 3`. -/
theorem singleton_exactly_one_some_witness :
    1 ≤ 3 ∧
      ((((x86.Singleton.new (0 : Nat)).runCalls 3).1.countP
          (fun r => r.isSome)) = 1 ∧
        (((x86.Singleton.new (0 : Nat)).runCalls 3).1.countP
          (fun r => r.isNone)) = 3 - 1) :=
  ⟨by decide, singleton_exactly_one_some 0 3 (by decide)⟩

/-- Claim C3: `from_u16` sends each of 0, 1, 2, 3 to the ring with that
numeric value. -/
theorem from_u16_in_range :
    PrivilegeLevel.from_u16 0 = .ok .Ring0 ∧
      PrivilegeLevel.from_u16 1 = .ok .Ring1 ∧
      PrivilegeLevel.from_u16 2 = .ok .Ring2 ∧
      PrivilegeLevel.from_u16 3 = .ok .Ring3 :=
  ⟨rfl, rfl, rfl, rfl⟩

/-- Claim C4: for every `u16` value `n > 3`, `from_u16 n` panics (modelled
as the `Except.error` outcome carrying the panic message) and never
produces a ring value; there is no recoverable-error return path. -/
theorem from_u16_panics_above_three (n : Nat) (h3 : 3 < n)
    (h16 : n < 65536) :
    PrivilegeLevel.from_u16 n
      = .error (toString n ++ " is not a valid privilege level") := by
  obtain ⟨k, rfl⟩ : ∃ k, n = k + 4 := ⟨n - 4, by omega⟩
  rfl

/-- Witness for claim C4 at `n = 4`: the call panics, hence yields no ring
value. -/
theorem from_u16_panics_above_three_witness :
    3 < 4 ∧ 4 < 65536 ∧ (PrivilegeLevel.from_u16 4).isOk = false :=
  ⟨by decide, by decide, by
    rw [from_u16_panics_above_three 4 (by decide) (by decide)]
    rfl⟩

/-- Claim C5: `try_get_mut` never writes to the wrapped value — the
post-call state carries the same payload for every starting state — and on
an already-used singleton (flag `true`, any payload `v'`) it returns
`None` with the whole state unchanged. -/
theorem try_get_mut_frame {T : Type} (s : x86.Singleton T) :
    (s.try_get_mut).2.value = s.value ∧
      ∀ v' : T,
        ({ used := true, value := v' } : x86.Singleton T).try_get_mut
          = (none, { used := true, value := v' }) := by
  constructor
  · cases s with
    | mk u v' =>
      cases u with
      | false => rfl
      | true => rfl
  · intro v'
    rfl

/-- Claim C9: with panics modelled as the `Except.error` channel,
`Singleton::new` and `try_get_mut` always return `Except.ok` (their bodies
contain no panicking operation), and the only failure mode of the
interface is the `None` result: every call returns either `None` or `Some`
of the wrapped value. -/
theorem singleton_ops_panic_free {T : Type} (v : T) (s : x86.Singleton T) :
    x86.Singleton.newE v = Except.ok (x86.Singleton.new v) ∧
      s.try_get_mutE = Except.ok s.try_get_mut ∧
      ((s.try_get_mut).1 = none ∨ (s.try_get_mut).1 = some s.value) := by
  refine ⟨rfl, ?_, ?_⟩
  · cases s with
    | mk u v' =>
      cases u with
      | false => rfl
      | true => rfl
  · cases s with
    | mk u v' =>
      cases u with
      | false => right; rfl
      | true => left; rfl

/-- Claim C6: `PrivilegeLevel` is a closed four-value enumeration, each
value's numeric encoding is below 2^8 (fits in one byte, in fact below 4),
and conversion round-trips: `from_u16` applied to a ring's numeric value
returns that ring. -/
theorem privilege_level_closed_roundtrip :
    (∀ p : PrivilegeLevel, PrivilegeLevel.from_u16 p.toValue = .ok p) ∧
      (∀ p : PrivilegeLevel, p.toValue < 4 ∧ p.toValue < 256) ∧
      (∀ p : PrivilegeLevel,
        p = .Ring0 ∨ p = .Ring1 ∨ p = .Ring2 ∨ p = .Ring3) := by
  refine ⟨?_, ?_, ?_⟩
  · intro p
    cases p <;> rfl
  · intro p
    cases p <;> exact ⟨by decide, by decide⟩
  · intro p
    cases p
    · exact Or.inl rfl
    · exact Or.inr (Or.inl rfl)
    · exact Or.inr (Or.inr (Or.inl rfl))
    · exact Or.inr (Or.inr (Or.inr rfl))

/-- Claim C10: the `Sync` impl for `Singleton<T>` is unconditional — it
holds for every `T`, in particular for a `T` that is itself neither `Sync`
nor `Send` — while the `Send` impl holds exactly when `T` is `Send`. -/
theorem singleton_sync_send :
    (∀ t : RustTypeAttrs, singletonIsSync t = true) ∧
      singletonIsSync { isSend := false, isSync := false } = true ∧
      (∀ t : RustTypeAttrs, singletonIsSend t = t.isSend) := by
  exact ⟨fun _ => rfl, rfl, fun _ => rfl⟩

/-- Claim C7 (spec-modelled `addr` module): for every 64-bit `v`, the
checked constructor `VirtAddr::new` fails exactly when `v` is
non-canonical (some bit in 48..=63 differs from bit 47), and on every
canonical `v` it succeeds with a result that round-trips through `as_u64`
back to `v`. -/
theorem virtaddr_new_canonical (v : Nat) (_hv : v < 2 ^ 64) :
    (VirtAddr.new v = none ↔ ¬ VirtAddr.Canonical v) ∧
      (VirtAddr.Canonical v →
        (VirtAddr.new v).map VirtAddr.as_u64 = some v) := by
  constructor
  · unfold VirtAddr.new
    split <;> simp_all
  · intro hc
    unfold VirtAddr.new
    rw [if_pos hc]
    rfl

/-- Witness for claim C7 at `v = 2 ^ 63`, a non-canonical address. -/
theorem virtaddr_new_canonical_witness :
    (2 ^ 63 : Nat) < 2 ^ 64 ∧
      ((VirtAddr.new (2 ^ 63) = none ↔ ¬ VirtAddr.Canonical (2 ^ 63)) ∧
        (VirtAddr.Canonical (2 ^ 63) →
          (VirtAddr.new (2 ^ 63)).map VirtAddr.as_u64 = some (2 ^ 63))) :=
  ⟨by norm_num, virtaddr_new_canonical (2 ^ 63) (by norm_num)⟩

/-- Claim C8 (spec-modelled `addr` module): for every 64-bit `v`,
`new_truncate(v).as_u64()` is canonical (bits 48..=63 are a sign-extension
of bit 47), and it equals `v` whenever `v` was already canonical. -/
theorem virtaddr_new_truncate_canonical (v : Nat) (hv : v < 2 ^ 64) :
    VirtAddr.Canonical (VirtAddr.new_truncate v).as_u64 ∧
      (VirtAddr.Canonical v → (VirtAddr.new_truncate v).as_u64 = v) := by
  have hb := virtaddr_testBit47_div v
  constructor
  · unfold VirtAddr.new_truncate
    by_cases h47 : v.testBit 47
    · rw [if_pos h47]
      have h1 : v / 2 ^ 47 % 2 = 1 := by
        rw [hb] at h47
        exact of_decide_eq_true h47
      show VirtAddr.Canonical (v % 2 ^ 48 + (2 ^ 64 - 2 ^ 48))
      rw [virtaddr_canonical_iff_div _ (by omega)]
      right
      have h2 : v % 2 ^ 48 / 2 ^ 47 = v / 2 ^ 47 % 2 := by
        calc v % 2 ^ 48 / 2 ^ 47 = v % (2 ^ 47 * 2) / 2 ^ 47 := by norm_num
          _ = v / 2 ^ 47 % 2 := Nat.mod_mul_right_div_self v (2 ^ 47) 2
      have h3 : (2 : Nat) ^ 64 - 2 ^ 48 = 131070 * 2 ^ 47 := by norm_num
      rw [h3, Nat.add_mul_div_right _ _ (by positivity), h2, h1]
    · rw [if_neg h47]
      have h1 : v / 2 ^ 47 % 2 = 0 := by
        have h0 : ¬ (v / 2 ^ 47 % 2 = 1) := by
          intro hq
          exact h47 (by rw [hb]; exact decide_eq_true hq)
        omega
      show VirtAddr.Canonical (v % 2 ^ 48)
      rw [virtaddr_canonical_iff_div _ (by omega)]
      left
      calc v % 2 ^ 48 / 2 ^ 47 = v % (2 ^ 47 * 2) / 2 ^ 47 := by norm_num
        _ = v / 2 ^ 47 % 2 := Nat.mod_mul_right_div_self v (2 ^ 47) 2
        _ = 0 := h1
  · intro hc
    rw [virtaddr_canonical_iff_div v hv] at hc
    unfold VirtAddr.new_truncate
    rcases hc with h | h
    · have h47 : v.testBit 47 = false := by
        rw [hb]
        apply decide_eq_false
        omega
      rw [if_neg (by simp [h47])]
      show v % 2 ^ 48 = v
      have hlt : v < 2 ^ 48 := by omega
      exact Nat.mod_eq_of_lt hlt
    · have h47 : v.testBit 47 = true := by
        rw [hb]
        apply decide_eq_true
        omega
      rw [if_pos h47]
      show v % 2 ^ 48 + (2 ^ 64 - 2 ^ 48) = v
      omega

/-- Witness for claim C8 at `v = 42`, a canonical address. -/
theorem virtaddr_new_truncate_canonical_witness :
    (42 : Nat) < 2 ^ 64 ∧
      (VirtAddr.Canonical (VirtAddr.new_truncate 42).as_u64 ∧
        (VirtAddr.Canonical 42 → (VirtAddr.new_truncate 42).as_u64 = 42)) :=
  ⟨by norm_num, virtaddr_new_truncate_canonical 42 (by norm_num)⟩
